import Mathlib

/-!
Verification of the iterm2-remote relay/agent core against its Lean shallow
embedding.  Rust sources are embedded as executable Lean definitions:
bytes are `Nat` (values `< 256`), byte strings are `List Nat`, machine-integer
casts are explicit `% 2 ^ w`, fallible operations return `Option`.
-/

/-! ## Frame codec (mac-client/src/relay/connection.rs)

`send_terminal_data` (lines 227-248) builds the binary frame
`[id_len as u8][id bytes][payload]`; `handle_binary_message` (lines 256-273)
decodes it, rejecting inputs shorter than 2 bytes and inputs shorter than
`1 + id_len`.
-/

/-- `send_terminal_data` framing: one length byte (`session_id.len() as u8`,
hence `% 256`), the id bytes, then the payload. -/
def encodeFrame (id payload : List Nat) : List Nat :=
  (id.length % 256) :: (id ++ payload)

/-- The frame-extraction part of `handle_binary_message`: the `data.len() < 2`
guard, the `data.len() < 1 + id_len` guard, then the split into
session id bytes and payload bytes. -/
def decodeFrame (data : List Nat) : Option (List Nat × List Nat) :=
  match data with
  | [] => none
  | idLen :: rest =>
    if (idLen :: rest).length < 2 then none
    else if (idLen :: rest).length < 1 + idLen then none
    else some (rest.take idLen, rest.drop idLen)

theorem encodeFrame_length (id payload : List Nat) :
    (encodeFrame id payload).length = 1 + id.length + payload.length := by
  simp [encodeFrame]
  omega

theorem decodeFrame_encodeFrame (id payload : List Nat) (hid : id.length ≤ 255)
    (hne : id ≠ [] ∨ payload ≠ []) :
    decodeFrame (encodeFrame id payload) = some (id, payload) := by
  have hmod : id.length % 256 = id.length := Nat.mod_eq_of_lt (by omega)
  have hlen : (id ++ payload).length = id.length + payload.length := by simp
  have hpos : 0 < id.length + payload.length := by
    rcases hne with h | h
    · have : 0 < id.length := List.length_pos.mpr h
      omega
    · have : 0 < payload.length := List.length_pos.mpr h
      omega
  simp only [encodeFrame, decodeFrame, hmod, List.length_cons, hlen]
  rw [if_neg (by omega), if_neg (by omega)]
  rw [List.take_left' rfl, List.drop_left' rfl]

theorem decodeFrame_short (data : List Nat) (idLen : Nat) (rest : List Nat)
    (hdata : data = idLen :: rest) (hshort : data.length < 1 + idLen) :
    decodeFrame data = none := by
  subst hdata
  simp only [decodeFrame, List.length_cons] at *
  by_cases h2 : rest.length + 1 < 2
  · rw [if_pos h2]
  · rw [if_neg h2, if_pos (by omega)]

/-- **C1 counterexample.** The claim quantifies over every id of length
`0..=255` and every payload, including both empty: `encode("", "")` is the
single byte `[0x00]`, and `handle_binary_message` discards any input shorter
than 2 bytes, so this frame does not round-trip. -/
theorem C1_counterexample :
    decodeFrame (encodeFrame [] []) = none ∧
    decodeFrame (encodeFrame [] []) ≠ some ([], []) := by
  constructor
  · rfl
  · intro h
    simp [encodeFrame, decodeFrame] at h

/-- **C1 (amended).** For every session id of length `0..=255` and payload `p`
such that the two are not both empty, decoding the encoded frame
`[id_len:u8][id][payload]` yields back exactly `(id, p)`; and decoding any
byte string shorter than `1 + L` (where `L` is its first byte) fails —
these are `handle_binary_message`'s two malformed-frame guards. -/
theorem C1_frame_codec (id payload : List Nat) (hid : id.length ≤ 255)
    (hne : id ≠ [] ∨ payload ≠ []) :
    decodeFrame (encodeFrame id payload) = some (id, payload) ∧
    ∀ data : List Nat, ∀ l : Nat, ∀ rest : List Nat,
      data = l :: rest → data.length < 1 + l → decodeFrame data = none := by
  refine ⟨decodeFrame_encodeFrame id payload hid hne, ?_⟩
  intro data l rest hd hs
  exact decodeFrame_short data l rest hd hs

/-- Witness for `C1_frame_codec` at `id = "sess"` (bytes), `p = [0x68, 0x69]`,
and the short input `[0x04, 0x73]`. -/
theorem C1_frame_codec_witness :
    decodeFrame (encodeFrame [115, 101, 115, 115] [104, 105]) =
      some ([115, 101, 115, 115], [104, 105]) ∧
    decodeFrame [4, 115] = none := by
  have h := C1_frame_codec [115, 101, 115, 115] [104, 105] (by decide)
    (Or.inl (by decide))
  exact ⟨h.1, h.2 [4, 115] 4 [115] rfl (by decide)⟩

/-! ## Tunnel supervisor (mac-client/src/main.rs)

`run_cloudflared_tunnel` (lines 827-877) reads the child's stderr line by
line and, for each line where `extract_tunnel_url` (lines 880-889) finds a
word, sends a `UiEvent::TunnelUrl` — once per matching line, with no
deduplication.
-/

/-- Rust `str::split_whitespace`: maximal runs of non-whitespace characters
(empty pieces are skipped).  `acc` holds the current word reversed. -/
def splitWhitespaceAux : List Char → List Char → List (List Char)
  | [], acc => if acc.isEmpty then [] else [acc.reverse]
  | c :: cs, acc =>
    if c.isWhitespace then
      if acc.isEmpty then splitWhitespaceAux cs []
      else acc.reverse :: splitWhitespaceAux cs []
    else splitWhitespaceAux cs (c :: acc)

def splitWhitespace (s : List Char) : List (List Char) :=
  splitWhitespaceAux s []

/-- Rust `str::contains(pat)`: `pat` occurs as a contiguous substring. -/
def containsSub (s pat : List Char) : Bool :=
  match s with
  | [] => pat.isEmpty
  | _ :: rest => pat.isPrefixOf s || containsSub rest pat

/-- `extract_tunnel_url`: the first whitespace-separated word of the line
that starts with `https://` and contains `trycloudflare.com`. -/
def extract_tunnel_url (line : List Char) : Option (List Char) :=
  (splitWhitespace line).find?
    (fun word => ("https://".data).isPrefixOf word &&
      containsSub word ("trycloudflare.com".data))

/-- The `UiEvent` variants relevant to the tunnel supervisor. -/
inductive UiEvent where
  | tunnelUrl (url : List Char)
  | relayError (message : List Char)
deriving DecidableEq

/-- The stderr loop of `run_cloudflared_tunnel`: for each line in order,
emit `UiEvent::TunnelUrl` whenever `extract_tunnel_url` finds a URL. -/
def run_cloudflared_lines : List (List Char) → List UiEvent
  | [] => []
  | line :: rest =>
    match extract_tunnel_url line with
    | some url => UiEvent.tunnelUrl url :: run_cloudflared_lines rest
    | none => run_cloudflared_lines rest

/-- The cloudflared stderr line of spec scenario 6. -/
def demoTunnelLine : List Char :=
  "2026-01-01T00:00:00Z INF | https://foo-bar-baz.trycloudflare.com".data

/-- **C9 counterexample.** Feeding the supervisor the same matching stderr
line twice emits `tunnel_url` twice: there is no deduplication, contradicting
"a subsequent duplicate matching line does not cause a second emission". -/
theorem C9_counterexample :
    run_cloudflared_lines [demoTunnelLine, demoTunnelLine] =
      [UiEvent.tunnelUrl ("https://foo-bar-baz.trycloudflare.com".data),
       UiEvent.tunnelUrl ("https://foo-bar-baz.trycloudflare.com".data)] ∧
    (run_cloudflared_lines [demoTunnelLine, demoTunnelLine]).length ≠ 1 := by
  constructor
  · rfl
  · decide

/-- **C9 (amended).** The supervisor emits one `tunnel_url` event per matching
stderr line — the count of `tunnel_url url` events equals the count of lines
whose extracted URL is `url` — so a duplicate matching line emits again. -/
theorem C9_tunnel_url_per_line (lines : List (List Char)) (url : List Char) :
    (run_cloudflared_lines lines).count (UiEvent.tunnelUrl url) =
      lines.countP (fun l => extract_tunnel_url l == some url) := by
  induction lines with
  | nil => rfl
  | cons line rest ih =>
    simp only [run_cloudflared_lines, List.countP_cons]
    cases hx : extract_tunnel_url line with
    | none =>
      simp only [hx, ih]
      have : ((none : Option (List Char)) == some url) = false := by rfl
      simp [this]
    | some u =>
      simp only [hx, List.count_cons, ih]
      by_cases hu : u = url
      · subst hu
        simp
      · have h1 : (UiEvent.tunnelUrl u == UiEvent.tunnelUrl url) = false := by
          rw [beq_eq_false_iff_ne]
          intro h
          injection h with h
          exact hu h
        have h2 : ((some u : Option (List Char)) == some url) = false := by
          rw [beq_eq_false_iff_ne]
          intro h
          injection h with h
          exact hu h
        simp [h1, h2]

/-! ## Relay client reconnect policy (mac-client/src/relay/connection.rs)

`RelayClient::run` (lines 85-106): each loop iteration runs
`connect_and_run`, then sleeps `2^min(reconnect_attempts, 5)` seconds and
increments `reconnect_attempts`.  Inside `connect_and_run` (lines 109-131),
`reconnect_attempts` is set to 0 as soon as `connect_async` succeeds —
before the `register` message is even sent, and regardless of whether a
`registered{code}` reply ever arrives.
-/

/-- Outcome of one `connect_and_run` call: either `connect_async` failed, or
the WebSocket connected and the session later ended (the Bool records whether
a `registered{code}` reply was received before the end). -/
inductive ConnOutcome where
  | connectFailed
  | connectedClosed (registered : Bool)
deriving DecidableEq

/-- One iteration of `RelayClient::run`: given the current
`reconnect_attempts` value and the outcome of `connect_and_run`, return the
sleep delay in seconds and the next `reconnect_attempts` value.  On a
successful connection the counter was zeroed inside `connect_and_run`. -/
def run_step (n : Nat) (o : ConnOutcome) : Nat × Nat :=
  match o with
  | ConnOutcome.connectFailed => (2 ^ (min n 5), n + 1)
  | ConnOutcome.connectedClosed _ => (2 ^ (min 0 5), 0 + 1)

/-- The delays slept by successive iterations of `RelayClient::run`, starting
from counter value `n`. -/
def run_delays (n : Nat) : List ConnOutcome → List Nat
  | [] => []
  | o :: rest => (run_step n o).1 :: run_delays (run_step n o).2 rest

/-- Modelled from the spec: the same loop but with the counter reset only on
successful **registration**, as the claim states ("the attempt counter n
resets to 0 on successful registration"). -/
def spec_run_step (n : Nat) (o : ConnOutcome) : Nat × Nat :=
  match o with
  | ConnOutcome.connectFailed => (2 ^ (min n 5), n + 1)
  | ConnOutcome.connectedClosed true => (2 ^ (min 0 5), 0 + 1)
  | ConnOutcome.connectedClosed false => (2 ^ (min n 5), n + 1)

/-- Modelled from the spec: delay sequence under the spec's reset rule. -/
def spec_run_delays (n : Nat) : List ConnOutcome → List Nat
  | [] => []
  | o :: rest => (spec_run_step n o).1 :: spec_run_delays (spec_run_step n o).2 rest

/-- Two failed connects, then a connection that closes before any
`registered` reply arrives. -/
def demoConnTrace : List ConnOutcome :=
  [ConnOutcome.connectFailed, ConnOutcome.connectFailed,
   ConnOutcome.connectedClosed false]

/-- **C7 counterexample.** After two connect failures and one connection that
drops before registration, the code waits 1 s (the counter was zeroed on the
successful connect), while the claim's reset-on-registration rule would wait
`2^min(2,5) = 4` s: the counter in the code resets on successful connection,
not on successful registration. -/
theorem C7_counterexample :
    run_delays 0 demoConnTrace = [1, 2, 1] ∧
    spec_run_delays 0 demoConnTrace = [1, 2, 4] ∧
    run_delays 0 demoConnTrace ≠ spec_run_delays 0 demoConnTrace := by
  refine ⟨rfl, rfl, ?_⟩
  decide

/-- **C7 (amended).** On every transition to Disconnected the client waits
`2^min(n,5)` seconds, so repeated connect failures give delays
1, 2, 4, 8, 16, 32, 32, … (capped at 32); and the attempt counter resets to 0
on every successful **connection** (before registration), so the delay after
any connected-then-closed outcome is 1 s regardless of whether registration
completed. -/
theorem C7_backoff (k : Nat) :
    run_delays 0 (List.replicate k ConnOutcome.connectFailed) =
      (List.range k).map (fun i => 2 ^ (min i 5)) ∧
    (∀ n : Nat, ∀ b : Bool, ∀ rest : List ConnOutcome,
      run_delays n (ConnOutcome.connectedClosed b :: rest) =
        1 :: run_delays 1 rest) ∧
    (∀ n : Nat, ∀ tr : List ConnOutcome, ∀ d : Nat,
      d ∈ run_delays n tr → d ≤ 32) := by
  refine ⟨?_, ?_, ?_⟩
  · have general : ∀ k n, run_delays n (List.replicate k ConnOutcome.connectFailed) =
        (List.range k).map (fun i => 2 ^ (min (n + i) 5)) := by
      intro k
      induction k with
      | zero => intro n; rfl
      | succ m ih =>
        intro n
        rw [List.replicate_succ, List.range_succ_eq_map]
        simp only [run_delays, run_step, List.map_cons, List.map_map,
          List.cons.injEq]
        refine ⟨by simp, ?_⟩
        rw [ih (n + 1)]
        congr 1
        funext i
        simp only [Function.comp]
        congr 2
        omega
    simpa using general k 0
  · intro n b rest
    simp [run_delays, run_step]
  · intro n tr
    induction tr generalizing n with
    | nil => intro d h; simp [run_delays] at h
    | cons o rest ih =>
      intro d h
      simp only [run_delays, List.mem_cons] at h
      rcases h with h | h
      · subst h
        cases o with
        | connectFailed =>
          simp only [run_step]
          calc 2 ^ (min n 5) ≤ 2 ^ 5 :=
                Nat.pow_le_pow_right (by omega) (Nat.min_le_right n 5)
            _ = 32 := by norm_num
        | connectedClosed b => simp [run_step]
      · exact ih _ _ h

/-- Witness for `C7_backoff` at `k = 8`, with the reset conjunct applied at
`n = 4` and the cap conjunct at a concrete trace. -/
theorem C7_backoff_witness :
    run_delays 0 (List.replicate 8 ConnOutcome.connectFailed) =
      [1, 2, 4, 8, 16, 32, 32, 32] ∧
    run_delays 4 [ConnOutcome.connectedClosed true] = [1] ∧
    (2 : Nat) ≤ 32 := by
  have h := C7_backoff 8
  refine ⟨?_, h.2.1 4 true [], ?_⟩
  · rw [h.1]
    decide
  · exact h.2.2 1 [ConnOutcome.connectFailed] 2 (by decide)

/-! ## In-band binary control messages (mac-client/src/relay/connection.rs)

`handle_binary_message` (lines 256-321): after frame extraction, a payload
whose first byte is `{` (0x7b = 123) is tentatively parsed as JSON
(`std::str::from_utf8` + `serde_json::from_str`, modelled together as an
abstract `parse` function).  A `{"type":"resize","cols":N,"rows":M}` object
yields `RelayEvent::Resize` with `cols as u16` / `rows as u16` — i.e. the
values reduced modulo `2^16`; `{"type":"close_session"}` yields
`RelayEvent::CloseSession`; everything else falls through to
`RelayEvent::TerminalData`.
-/

/-- A `serde_json::Value`.  Numbers keep serde's internal split: `numPos`
is a non-negative integer (stored as `u64`), `numNeg` a negative integer,
`numFloat` a float; `as_u64` succeeds only on `numPos`. -/
inductive JsonVal where
  | null
  | bool (b : Bool)
  | numPos (n : Nat)
  | numNeg (i : Int)
  | numFloat
  | str (s : String)
  | arr (xs : List JsonVal)
  | obj (fields : List (String × JsonVal))

/-- `serde_json::Value::get(key)`: field lookup on an object (serde maps have
unique keys; lookup returns the entry with the given key). -/
def jsonGet (j : JsonVal) (key : String) : Option JsonVal :=
  match j with
  | JsonVal.obj fields => (fields.find? (fun f => f.1 = key)).map Prod.snd
  | _ => none

/-- `serde_json::Value::as_u64`. -/
def jsonAsU64 (j : JsonVal) : Option Nat :=
  match j with
  | JsonVal.numPos n => some n
  | _ => none

/-- `serde_json::Value::as_str`. -/
def jsonAsStr (j : JsonVal) : Option String :=
  match j with
  | JsonVal.str s => some s
  | _ => none

/-- The events `handle_binary_message` can emit (session ids kept as raw
bytes; `from_utf8_lossy` is the identity on the valid-UTF-8 ids produced by
the agent). -/
inductive RelayEventM where
  | resize (session_id : List Nat) (cols rows : Nat)
  | closeSession (session_id : List Nat)
  | terminalData (session_id : List Nat) (data : List Nat)
deriving DecidableEq

/-- `handle_binary_message`, lines 256-321.  `parse` stands for the external
`str::from_utf8` + `serde_json::from_str` composition on the payload bytes.
`none` means the frame was discarded by the malformed-frame guards. -/
def handle_binary_message (parse : List Nat → Option JsonVal)
    (data : List Nat) : Option RelayEventM :=
  match decodeFrame data with
  | none => none
  | some (sid, payload) =>
    let fallback := some (RelayEventM.terminalData sid payload)
    if payload.head? = some 123 then
      match parse payload with
      | some json =>
        let msgType := (jsonGet json "type").bind jsonAsStr
        if msgType = some "resize" then
          match (jsonGet json "cols").bind jsonAsU64,
              (jsonGet json "rows").bind jsonAsU64 with
          | some cols, some rows =>
            some (RelayEventM.resize sid (cols % 2 ^ 16) (rows % 2 ^ 16))
          | _, _ => fallback
        else if msgType = some "close_session" then
          some (RelayEventM.closeSession sid)
        else fallback
      | none => fallback
    else fallback

/-- **C10.** For every decoded binary frame whose payload starts with `{` and
parses as `{"type":"resize","cols":N,"rows":M}` with non-negative integers
`N` and `M`, the agent emits a `Resize` event whose `cols` equals `N mod 2^16`
and `rows` equals `M mod 2^16`: the `as u16` casts silently truncate values
65536 and above instead of rejecting them. -/
theorem C10_resize_truncation (parse : List Nat → Option JsonVal)
    (id payload : List Nat) (json : JsonVal) (cols rows : Nat)
    (hid : id.length ≤ 255)
    (hbrace : payload.head? = some 123)
    (hparse : parse payload = some json)
    (htype : (jsonGet json "type").bind jsonAsStr = some "resize")
    (hcols : (jsonGet json "cols").bind jsonAsU64 = some cols)
    (hrows : (jsonGet json "rows").bind jsonAsU64 = some rows) :
    handle_binary_message parse (encodeFrame id payload) =
      some (RelayEventM.resize id (cols % 2 ^ 16) (rows % 2 ^ 16)) := by
  have hpne : payload ≠ [] := by
    intro h
    subst h
    simp at hbrace
  have hdec : decodeFrame (encodeFrame id payload) = some (id, payload) :=
    decodeFrame_encodeFrame id payload hid (Or.inr hpne)
  simp only [handle_binary_message, hdec, hbrace, hparse, htype, hcols, hrows,
    if_pos]

/-- The payload bytes of `{"type":"resize","cols":70000,"rows":50}`. -/
def demoResizeBytes : List Nat :=
  ("\x7b\"type\":\"resize\",\"cols\":70000,\"rows\":50\x7d".data).map Char.toNat

/-- The parsed value of `demoResizeBytes`. -/
def demoResizeJson : JsonVal :=
  JsonVal.obj [("type", JsonVal.str "resize"), ("cols", JsonVal.numPos 70000),
    ("rows", JsonVal.numPos 50)]

/-- Witness for `C10_resize_truncation`: a frame for session id byte `115`
carrying `{"type":"resize","cols":70000,"rows":50}` yields a `Resize` event
with `cols = 70000 % 65536 = 4464` and `rows = 50`. -/
theorem C10_resize_truncation_witness :
    handle_binary_message
        (fun p => if p = demoResizeBytes then some demoResizeJson else none)
        (encodeFrame [115] demoResizeBytes) =
      some (RelayEventM.resize [115] 4464 50) := by
  have h := C10_resize_truncation
    (fun p => if p = demoResizeBytes then some demoResizeJson else none)
    [115] demoResizeBytes demoResizeJson 70000 50
    (by decide) (by decide) (by simp) (by decide) (by decide) (by decide)
  simpa using h

/-! ## Relay session broker (relay-server/src/state.rs, session.rs)

The sessions map is a `DashMap<String, Session>` keyed by the 6-char code;
each `Session` holds the agent's `client_id`, its sender channel and a
`DashMap<String, Sender>` of browsers.  A map with unique keys is embedded
as an association list whose operations touch the (unique) matching entry.
-/

/-- Association-list lookup: the entry with the given key (`DashMap::get`). -/
def alookup {α β : Type} [DecidableEq α] : List (α × β) → α → Option β
  | [], _ => none
  | e :: rest, k => if e.1 = k then some e.2 else alookup rest k

/-- Remove the entry with the given key (`DashMap::remove`). -/
def aremove {α β : Type} [DecidableEq α] : List (α × β) → α → List (α × β)
  | [], _ => []
  | e :: rest, k => if e.1 = k then rest else e :: aremove rest k

/-- Update the entry with the given key in place, if present. -/
def aupdate {α β : Type} [DecidableEq α] (f : β → β) :
    List (α × β) → α → List (α × β)
  | [], _ => []
  | e :: rest, k =>
    if e.1 = k then (e.1, f e.2) :: rest else e :: aupdate f rest k

theorem alookup_eq_none {α β : Type} [DecidableEq α]
    (l : List (α × β)) (k : α) :
    alookup l k = none ↔ k ∉ l.map Prod.fst := by
  induction l with
  | nil => simp [alookup]
  | cons e rest ih =>
    by_cases h : e.1 = k
    · simp [alookup, h]
    · simp only [alookup, if_neg h, List.map_cons, List.mem_cons, ih]
      constructor
      · intro hn hc
        rcases hc with hc | hc
        · exact h hc.symm
        · exact hn hc
      · intro hn
        intro hc
        exact hn (Or.inr hc)

/-- The 31-character code alphabet of `session.rs` (no `0 O 1 I L`). -/
def CODE_ALPHABET : List Char :=
  ['A', 'B', 'C', 'D', 'E', 'F', 'G', 'H', 'J', 'K',
   'M', 'N', 'P', 'Q', 'R', 'S', 'T', 'U', 'V', 'W',
   'X', 'Y', 'Z', '2', '3', '4', '5', '6', '7', '8', '9']

/-- `generate_session_code`: `nanoid!(6, &CODE_ALPHABET)` draws 6 characters
from the alphabet; the random draw is modelled by the index function
`pick`. -/
def generate_session_code (pick : Fin 6 → Fin 31) : List Char :=
  List.ofFn (fun i => CODE_ALPHABET.get ((pick i).cast (by decide)))

/-- A relay `Session`'s model-relevant fields: the agent's `client_id` and
the browsers submap (browser id, with the text messages enqueued to that
browser's channel in order). -/
structure RSession where
  client_id : String
  browsers : List (List Char × List String)
deriving DecidableEq

/-- The sessions map: code to session. -/
abbrev RelayState := List (List Char × RSession)

/-- The mint loop of `register_mac_client` (state.rs lines 54-60): draw
candidates until one is not in the sessions map.  The random generator is
modelled as the stream `cands`; the result carries the number of
`generate_session_code` calls made.  `none` means the candidate supply ran
out — the loop in the source would simply keep drawing; there is no attempt
bound and no error outcome. -/
def mintLoop : List (List Char) → RelayState → Option (List Char × Nat)
  | [], _ => none
  | c :: rest, st =>
    if (alookup st c).isSome then
      match mintLoop rest st with
      | some p => some (p.1, p.2 + 1)
      | none => none
    else some (c, 1)

/-- `register_mac_client` (state.rs lines 52-74): mint a fresh code, insert
the new session, return the code. -/
def register_mac_client (cands : List (List Char)) (client_id : String)
    (st : RelayState) : Option (List Char × RelayState) :=
  match mintLoop cands st with
  | none => none
  | some (code, _) => some (code, (code, ⟨client_id, []⟩) :: st)

/-- `remove_session` (state.rs lines 87-91). -/
def remove_session (st : RelayState) (code : List Char) : RelayState :=
  aremove st code

/-- A sequence of `register_mac_client` calls with no intervening removals;
each call brings its own client id and candidate stream. -/
def registerRun : List (String × List (List Char)) → RelayState →
    Option (List (List Char) × RelayState)
  | [], st => some ([], st)
  | (cid, cands) :: rest, st =>
    match register_mac_client cands cid st with
    | none => none
    | some (code, st') =>
      match registerRun rest st' with
      | none => none
      | some (codes, st'') => some (code :: codes, st'')

theorem mintLoop_fresh (cands : List (List Char)) (st : RelayState)
    (c : List Char) (n : Nat) (h : mintLoop cands st = some (c, n)) :
    alookup st c = none := by
  induction cands generalizing n with
  | nil => simp [mintLoop] at h
  | cons x rest ih =>
    simp only [mintLoop] at h
    by_cases hx : (alookup st x).isSome
    · rw [if_pos hx] at h
      cases hr : mintLoop rest st with
      | none => rw [hr] at h; simp at h
      | some p =>
        obtain ⟨c1, m⟩ := p
        rw [hr] at h
        simp only [Option.some.injEq, Prod.mk.injEq] at h
        exact ih m (by rw [hr, h.1])
    · rw [if_neg hx] at h
      simp only [Option.some.injEq, Prod.mk.injEq] at h
      rw [← h.1]
      exact Option.not_isSome_iff_eq_none.mp hx

theorem register_mac_client_spec (cands : List (List Char)) (cid : String)
    (st : RelayState) (code : List Char) (st' : RelayState)
    (h : register_mac_client cands cid st = some (code, st')) :
    alookup st code = none ∧ st' = (code, ⟨cid, []⟩) :: st := by
  simp only [register_mac_client] at h
  cases hm : mintLoop cands st with
  | none => rw [hm] at h; simp at h
  | some p =>
    obtain ⟨c0, n0⟩ := p
    rw [hm] at h
    simp only [Option.some.injEq, Prod.mk.injEq] at h
    obtain ⟨h1, h2⟩ := h
    subst h1
    exact ⟨mintLoop_fresh cands st c0 n0 hm, h2.symm⟩

theorem registerRun_spec (runs : List (String × List (List Char)))
    (st : RelayState) (codes : List (List Char)) (st' : RelayState)
    (h : registerRun runs st = some (codes, st')) :
    st'.map Prod.fst = codes.reverse ++ st.map Prod.fst ∧ codes.Nodup ∧
      ∀ c ∈ codes, c ∉ st.map Prod.fst := by
  induction runs generalizing st codes with
  | nil =>
    simp only [registerRun, Option.some.injEq, Prod.mk.injEq] at h
    obtain ⟨h1, h2⟩ := h
    subst h2
    rw [← h1]
    exact ⟨by simp, List.nodup_nil, fun c hc => absurd hc (List.not_mem_nil c)⟩
  | cons run rest ih =>
    obtain ⟨cid, cands⟩ := run
    simp only [registerRun] at h
    cases hreg : register_mac_client cands cid st with
    | none => rw [hreg] at h; simp at h
    | some p =>
      obtain ⟨c, st1⟩ := p
      rw [hreg] at h
      simp only [] at h
      cases hrun : registerRun rest st1 with
      | none => rw [hrun] at h; simp at h
      | some q =>
        obtain ⟨cs, st2⟩ := q
        rw [hrun] at h
        simp only [] at h
        simp only [Option.some.injEq, Prod.mk.injEq] at h
        obtain ⟨hcodes, hst⟩ := h
        subst hst
        obtain ⟨hfresh, hst1⟩ := register_mac_client_spec cands cid st c st1 hreg
        subst hst1
        obtain ⟨hkeys, hnd, hmem⟩ := ih _ cs hrun
        have hcfresh : c ∉ st.map Prod.fst := (alookup_eq_none st c).mp hfresh
        subst hcodes
        rw [List.map_cons] at hkeys
        refine ⟨?_, ?_, ?_⟩
        · rw [hkeys]
          simp
        · refine List.nodup_cons.mpr ⟨?_, hnd⟩
          intro hc
          have := hmem c hc
          rw [List.map_cons] at this
          exact this (List.mem_cons_self _ _)
        · intro y hy
          rcases List.mem_cons.mp hy with hy | hy
          · subst hy; exact hcfresh
          · intro hmem2
            have := hmem y hy
            simp only [List.map_cons, List.mem_cons] at this
            exact this (Or.inr hmem2)

/-- **C2.** Across any sequence of successful `register_mac_client` calls
with no intervening removals, the returned codes are pairwise distinct
(`|distinct(codes)| = k` after `k` mints); the sessions map never holds two
sessions under one code (unique keys are preserved); and minting after
removing a code may reuse it, witnessed by a concrete run that re-mints
`"AAAAAA"` after its removal. -/
theorem C2_code_uniqueness (runs : List (String × List (List Char)))
    (st : RelayState) (codes : List (List Char)) (st' : RelayState)
    (h : registerRun runs st = some (codes, st'))
    (hnd : (st.map Prod.fst).Nodup) :
    codes.Nodup ∧ codes.dedup.length = codes.length ∧
      (st'.map Prod.fst).Nodup ∧
      ∃ s1 : RelayState,
        register_mac_client ["AAAAAA".data] "c1" [] =
          some ("AAAAAA".data, s1) ∧
        (register_mac_client ["AAAAAA".data] "c2"
            (remove_session s1 "AAAAAA".data)).map Prod.fst =
          some "AAAAAA".data := by
  obtain ⟨hkeys, hcodes, hmem⟩ := registerRun_spec runs st codes st' h
  refine ⟨hcodes, ?_, ?_, ?_⟩
  · exact congrArg List.length (List.dedup_eq_self.mpr hcodes)
  · rw [hkeys]
    rw [List.nodup_append]
    refine ⟨List.nodup_reverse.mpr hcodes, hnd, ?_⟩
    intro c hc
    exact hmem c (List.mem_reverse.mp hc)
  · exact ⟨[("AAAAAA".data, ⟨"c1", []⟩)], by rfl, by rfl⟩

/-- Witness for `C2_code_uniqueness`: two registrations from the empty map
minting `"AAAAAA"` then `"BBBBBB"` (first candidate collides). -/
theorem C2_code_uniqueness_witness :
    registerRun [("c1", ["AAAAAA".data]), ("c2", ["AAAAAA".data, "BBBBBB".data])]
        [] =
      some (["AAAAAA".data, "BBBBBB".data],
        [("BBBBBB".data, ⟨"c2", []⟩), ("AAAAAA".data, ⟨"c1", []⟩)]) ∧
    ["AAAAAA".data, "BBBBBB".data].Nodup := by
  have h := C2_code_uniqueness
    [("c1", ["AAAAAA".data]), ("c2", ["AAAAAA".data, "BBBBBB".data])] []
    ["AAAAAA".data, "BBBBBB".data]
    [("BBBBBB".data, ⟨"c2", []⟩), ("AAAAAA".data, ⟨"c1", []⟩)]
    (by rfl) (by simp)
  exact ⟨by rfl, h.1⟩

/-- Nine active sessions whose codes the mint's random stream will hit
before finding a fresh one. -/
def collideCodes : List (List Char) :=
  ["AAAAAA".data, "BBBBBB".data, "CCCCCC".data, "DDDDDD".data,
   "EEEEEE".data, "FFFFFF".data, "GGGGGG".data, "HHHHHH".data,
   "JJJJJJ".data]

def collideState : RelayState :=
  collideCodes.map (fun c => (c, ⟨"agent", []⟩))

/-- **C3 counterexample.** A mint run that collides 9 times — past the
spec's example bound of 8 attempts — still just retries and returns a code
on the 10th draw.  `register_mac_client` (state.rs lines 52-74) is an
unbounded `loop` whose only exit is a fresh code: it has no attempt bound,
no capacity-error outcome, and nothing is reported to the agent
(ws.rs lines 82-107 have no mint-error path). -/
theorem C3_counterexample :
    mintLoop (collideCodes ++ ["KKKKKK".data]) collideState =
      some ("KKKKKK".data, 10) ∧
    register_mac_client (collideCodes ++ ["KKKKKK".data]) "mac-1"
        collideState =
      some ("KKKKKK".data, ("KKKKKK".data, ⟨"mac-1", []⟩) :: collideState) := by
  exact ⟨by rfl, by rfl⟩

/-- **C3 (amended).** Code minting retries on collision with the active set
indefinitely: for any number of colliding draws followed by a fresh one, the
loop performs exactly `collisions + 1` draws and returns the fresh code.
The implementation has no attempt bound and no capacity-error outcome. -/
theorem C3_mint_retries_unbounded (bad : List (List Char)) (c : List Char)
    (st : RelayState) (hbad : ∀ b ∈ bad, (alookup st b).isSome)
    (hc : alookup st c = none) :
    mintLoop (bad ++ [c]) st = some (c, bad.length + 1) := by
  induction bad with
  | nil =>
    simp only [List.nil_append, mintLoop, hc]
    rfl
  | cons x xs ih =>
    have hx : (alookup st x).isSome := hbad x (List.mem_cons_self x xs)
    have hxs : ∀ b ∈ xs, (alookup st b).isSome :=
      fun b hb => hbad b (List.mem_cons.mpr (Or.inr hb))
    simp only [List.cons_append, mintLoop, if_pos hx, List.append_eq]
    rw [ih hxs]
    rfl

/-- Witness for `C3_mint_retries_unbounded`: the 9-collision run. -/
theorem C3_mint_retries_unbounded_witness :
    mintLoop (collideCodes ++ ["KKKKKK".data]) collideState =
      some ("KKKKKK".data, collideCodes.length + 1) := by
  exact C3_mint_retries_unbounded collideCodes ("KKKKKK".data) collideState
    (by decide) (by decide)

/-! ## Disconnect propagation (relay-server/src/handlers/ws.rs, state.rs)

When the agent's socket loop in `handle_mac_client` ends (lines 151-158),
the handler serializes `ControlMessage::Error { message: "Session
disconnected" }`, broadcasts it to every browser of the session
(`broadcast_text_to_browsers`, state.rs lines 122-128), and only then calls
`remove_session` (lines 160-167).  A browser's own close path (lines
277-280) calls `remove_browser` only.  Browser queues record, in order, the
text frames enqueued to that browser's channel.
-/

theorem alookup_aupdate {α β : Type} [DecidableEq α] (f : β → β)
    (l : List (α × β)) (k : α) :
    alookup (aupdate f l k) k = (alookup l k).map f := by
  induction l with
  | nil => rfl
  | cons e rest ih =>
    by_cases h : e.1 = k
    · simp [aupdate, alookup, h]
    · simp only [aupdate, if_neg h, alookup, ih]

theorem aupdate_map_fst {α β : Type} [DecidableEq α] (f : β → β)
    (l : List (α × β)) (k : α) :
    (aupdate f l k).map Prod.fst = l.map Prod.fst := by
  induction l with
  | nil => rfl
  | cons e rest ih =>
    by_cases h : e.1 = k
    · simp [aupdate, h]
    · simp only [aupdate, if_neg h, List.map_cons, ih]

theorem alookup_aremove_nodup {α β : Type} [DecidableEq α]
    (l : List (α × β)) (k : α) (hnd : (l.map Prod.fst).Nodup) :
    alookup (aremove l k) k = none := by
  induction l with
  | nil => rfl
  | cons e rest ih =>
    simp only [List.map_cons, List.nodup_cons] at hnd
    by_cases h : e.1 = k
    · simp only [aremove, if_pos h]
      exact (alookup_eq_none rest k).mpr (by rw [← h]; exact hnd.1)
    · simp only [aremove, if_neg h, alookup, ih hnd.2]

theorem mem_aremove_of_ne {α β : Type} [DecidableEq α]
    (l : List (α × β)) (k : α) (p : α × β) (hp : p ∈ l) (hne : p.1 ≠ k) :
    p ∈ aremove l k := by
  induction l with
  | nil => simp at hp
  | cons e rest ih =>
    rcases List.mem_cons.mp hp with hp | hp
    · subst hp
      simp only [aremove, if_neg hne]
      exact List.mem_cons_self _ _
    · by_cases h : e.1 = k
      · simp only [aremove, if_pos h]
        exact hp
      · simp only [aremove, if_neg h]
        exact List.mem_cons.mpr (Or.inr (ih hp))

/-- The serialized `ControlMessage::Error { message: "Session disconnected" }`
text frame (ws.rs lines 161-163). -/
def sessionDisconnectedText : String :=
  "\x7b\"type\":\"error\",\"message\":\"Session disconnected\"\x7d"

/-- `broadcast_text_to_browsers` (state.rs lines 122-128): enqueue one copy
of `text` to every browser of the session; no-op when the code is absent. -/
def broadcast_text_to_browsers (st : RelayState) (code : List Char)
    (text : String) : RelayState :=
  aupdate (fun s =>
    ⟨s.client_id, s.browsers.map (fun b => (b.1, b.2 ++ [text]))⟩) st code

/-- `remove_browser` (state.rs lines 106-110). -/
def remove_browser (st : RelayState) (code : List Char) (bid : List Char) :
    RelayState :=
  aupdate (fun s => ⟨s.client_id, aremove s.browsers bid⟩) st code

/-- `add_browser` (state.rs lines 99-103). -/
def add_browser (st : RelayState) (code : List Char) (bid : List Char) :
    RelayState :=
  aupdate (fun s => ⟨s.client_id, (bid, []) :: s.browsers⟩) st code

/-- The teardown path at the end of `handle_mac_client` (ws.rs lines
160-167): broadcast the disconnect error to every attached browser, then
remove the session. -/
def mac_client_teardown (st : RelayState) (code : List Char) : RelayState :=
  remove_session
    (broadcast_text_to_browsers st code sessionDisconnectedText) code

/-- **C4.** When the agent's socket closes, every browser still attached to
the session has exactly one `error{"Session disconnected"}` text frame
enqueued — its queue grows by exactly one occurrence — and this happens
before the session entry is removed from the map (the broadcast state still
holds the session; the final state does not).  A browser socket close, by
contrast, removes only that browser: the session survives and every other
browser keeps its entry. -/
theorem C4_disconnect_broadcast (st : RelayState) (code : List Char)
    (s : RSession) (hnd : (st.map Prod.fst).Nodup)
    (hs : alookup st code = some s) :
    alookup (broadcast_text_to_browsers st code sessionDisconnectedText)
        code =
      some ⟨s.client_id,
        s.browsers.map (fun b => (b.1, b.2 ++ [sessionDisconnectedText]))⟩ ∧
    (∀ bid inbox, (bid, inbox) ∈ s.browsers →
      ∃ inbox2,
        (bid, inbox2) ∈
          s.browsers.map (fun b => (b.1, b.2 ++ [sessionDisconnectedText])) ∧
        inbox2.count sessionDisconnectedText =
          inbox.count sessionDisconnectedText + 1) ∧
    alookup (mac_client_teardown st code) code = none ∧
    (∀ bid, alookup (remove_browser st code bid) code =
      some ⟨s.client_id, aremove s.browsers bid⟩) ∧
    (∀ bid b2 q2, (b2, q2) ∈ s.browsers → b2 ≠ bid →
      (b2, q2) ∈ aremove s.browsers bid) := by
  refine ⟨?_, ?_, ?_, ?_, ?_⟩
  · rw [broadcast_text_to_browsers, alookup_aupdate, hs]
    rfl
  · intro bid inbox hb
    refine ⟨inbox ++ [sessionDisconnectedText], ?_, ?_⟩
    · exact List.mem_map.mpr ⟨(bid, inbox), hb, rfl⟩
    · rw [List.count_append]
      simp
  · rw [mac_client_teardown, remove_session]
    apply alookup_aremove_nodup
    rw [broadcast_text_to_browsers, aupdate_map_fst]
    exact hnd
  · intro bid
    rw [remove_browser, alookup_aupdate, hs]
    rfl
  · intro bid b2 q2 hb hne
    exact mem_aremove_of_ne s.browsers bid (b2, q2) hb hne

/-- Witness for `C4_disconnect_broadcast`: a single session `"AAAAAA"` with
two browsers; after teardown the session is gone, and removing browser
`"b1xx2y3z"` alone keeps the session. -/
theorem C4_disconnect_broadcast_witness :
    alookup (mac_client_teardown
        [("AAAAAA".data, ⟨"c1", [("b1xx2y3z".data, []), ("b2xx2y3z".data, [])]⟩)]
        "AAAAAA".data) "AAAAAA".data = none ∧
    alookup (remove_browser
        [("AAAAAA".data, ⟨"c1", [("b1xx2y3z".data, []), ("b2xx2y3z".data, [])]⟩)]
        "AAAAAA".data ("b1xx2y3z".data)) "AAAAAA".data =
      some ⟨"c1", [("b2xx2y3z".data, [])]⟩ := by
  have h := C4_disconnect_broadcast
    [("AAAAAA".data, ⟨"c1", [("b1xx2y3z".data, []), ("b2xx2y3z".data, [])]⟩)]
    ("AAAAAA".data) ⟨"c1", [("b1xx2y3z".data, []), ("b2xx2y3z".data, [])]⟩
    (by simp) (by rfl)
  refine ⟨h.2.2.1, ?_⟩
  rw [h.2.2.2.1 ("b1xx2y3z".data)]
  rfl

/-! ## Fan-out backpressure (relay-server/src/state.rs lines 113-119)

`broadcast_to_browsers` iterates the session's browsers and calls
`sender.send(msg).await` on each bounded channel (capacity 1000, ws.rs line
195).  A tokio bounded `send(..).await` on a full channel suspends the
caller until capacity frees; it never drops the message and nothing removes
the browser.  One scheduler step of the loop, with no consumer running, is
embedded below: sends enqueue while channels have room, and the loop parks
at the first full channel.
-/

/-- A tokio bounded mpsc channel: capacity and currently queued messages. -/
structure BChan where
  cap : Nat
  queue : List (List Nat)
deriving DecidableEq

/-- Result of one step of the fan-out loop over the browser map. -/
inductive BroadcastResult where
  | completed (browsers : List (List Char × BChan))
  | blockedAt (bid : List Char) (browsers : List (List Char × BChan))
deriving DecidableEq

/-- `broadcast_to_browsers`: sequential `send(..).await` per browser.  A
send on a channel with room enqueues; a send on a full channel suspends the
broadcasting task there — earlier sends stay enqueued, later browsers are
not reached, and no browser is removed. -/
def broadcast_to_browsers :
    List (List Char × BChan) → List Nat → BroadcastResult
  | [], _ => BroadcastResult.completed []
  | (bid, ch) :: rest, data =>
    if ch.queue.length < ch.cap then
      match broadcast_to_browsers rest data with
      | BroadcastResult.completed rest2 =>
        BroadcastResult.completed ((bid, ⟨ch.cap, ch.queue ++ [data]⟩) :: rest2)
      | BroadcastResult.blockedAt b rest2 =>
        BroadcastResult.blockedAt b ((bid, ⟨ch.cap, ch.queue ++ [data]⟩) :: rest2)
    else BroadcastResult.blockedAt bid ((bid, ch) :: rest)

/-- Modelled from the spec: the claimed backpressure policy — on a full
channel, drop the message for that browser and evict it from the fan-out,
never suspending the producer. -/
def broadcast_spec_drop :
    List (List Char × BChan) → List Nat → List (List Char × BChan)
  | [], _ => []
  | (bid, ch) :: rest, data =>
    if ch.queue.length < ch.cap then
      (bid, ⟨ch.cap, ch.queue ++ [data]⟩) :: broadcast_spec_drop rest data
    else broadcast_spec_drop rest data

/-- One browser whose bounded channel is full (capacity 1, one queued
message). -/
def demoFullBrowsers : List (List Char × BChan) :=
  [("b1aaaaaa".data, ⟨1, [[0]]⟩)]

/-- **C5 counterexample.** With one browser whose bounded channel is full,
the broker's fan-out suspends at that browser — the browser is not evicted
and the message is not dropped — whereas the claimed policy would complete
the fan-out with the slow browser evicted. -/
theorem C5_counterexample :
    broadcast_to_browsers demoFullBrowsers [7] =
      BroadcastResult.blockedAt ("b1aaaaaa".data) demoFullBrowsers ∧
    broadcast_spec_drop demoFullBrowsers [7] = [] ∧
    broadcast_to_browsers demoFullBrowsers [7] ≠
      BroadcastResult.completed (broadcast_spec_drop demoFullBrowsers [7]) := by
  refine ⟨by rfl, by rfl, by decide⟩

/-- **C5 (amended).** The broker's fan-out awaits capacity instead of
dropping: it never evicts a browser (the browser key set is preserved in
every outcome), and whenever the fan-out step does not complete it is
suspended at a browser whose bounded channel is full — the producing task
blocks rather than the slow consumer being dropped. -/
theorem C5_broadcast_blocks (browsers : List (List Char × BChan))
    (data : List Nat) :
    (∀ bs, broadcast_to_browsers browsers data =
        BroadcastResult.completed bs →
      bs.map Prod.fst = browsers.map Prod.fst) ∧
    (∀ b bs, broadcast_to_browsers browsers data =
        BroadcastResult.blockedAt b bs →
      bs.map Prod.fst = browsers.map Prod.fst ∧
        ∃ ch : BChan, (b, ch) ∈ browsers ∧ ¬ ch.queue.length < ch.cap) := by
  induction browsers with
  | nil =>
    constructor
    · intro bs h
      simp only [broadcast_to_browsers, BroadcastResult.completed.injEq] at h
      rw [← h]
    · intro b bs h
      simp [broadcast_to_browsers] at h
  | cons e rest ih =>
    obtain ⟨bid, ch⟩ := e
    by_cases hfull : ch.queue.length < ch.cap
    · constructor
      · intro bs h
        simp only [broadcast_to_browsers, if_pos hfull] at h
        cases hr : broadcast_to_browsers rest data with
        | completed rest2 =>
          rw [hr] at h
          simp only [BroadcastResult.completed.injEq] at h
          rw [← h]
          simp only [List.map_cons]
          rw [ih.1 rest2 hr]
        | blockedAt b2 rest2 =>
          rw [hr] at h
          simp at h
      · intro b bs h
        simp only [broadcast_to_browsers, if_pos hfull] at h
        cases hr : broadcast_to_browsers rest data with
        | completed rest2 =>
          rw [hr] at h
          simp at h
        | blockedAt b2 rest2 =>
          rw [hr] at h
          simp only [BroadcastResult.blockedAt.injEq] at h
          obtain ⟨hb, hbs⟩ := h
          obtain ⟨hkeys, ch2, hmem, hch2⟩ := ih.2 b2 rest2 hr
          subst hb
          refine ⟨?_, ch2, List.mem_cons.mpr (Or.inr hmem), hch2⟩
          rw [← hbs]
          simp only [List.map_cons]
          rw [hkeys]
    · constructor
      · intro bs h
        simp only [broadcast_to_browsers, if_neg hfull] at h
        simp at h
      · intro b bs h
        simp only [broadcast_to_browsers, if_neg hfull,
          BroadcastResult.blockedAt.injEq] at h
        obtain ⟨hb, hbs⟩ := h
        subst hb
        rw [← hbs]
        exact ⟨rfl, ch, List.mem_cons_self _ _, hfull⟩

/-- Witness for `C5_broadcast_blocks`: a browser with room completes the
fan-out with its key kept; the full browser of `demoFullBrowsers` blocks
the fan-out with its key kept. -/
theorem C5_broadcast_blocks_witness :
    [("b1aaaaaa".data, (⟨2, [[7]]⟩ : BChan))].map Prod.fst =
      [("b1aaaaaa".data, (⟨2, []⟩ : BChan))].map Prod.fst ∧
    demoFullBrowsers.map Prod.fst = demoFullBrowsers.map Prod.fst ∧
    ∃ ch : BChan, ("b1aaaaaa".data, ch) ∈ demoFullBrowsers ∧
      ¬ ch.queue.length < ch.cap := by
  have h1 := (C5_broadcast_blocks [("b1aaaaaa".data, ⟨2, []⟩)] [7]).1
    [("b1aaaaaa".data, ⟨2, [[7]]⟩)] (by rfl)
  have h2 := (C5_broadcast_blocks demoFullBrowsers [7]).2
    ("b1aaaaaa".data) demoFullBrowsers (by rfl)
  exact ⟨h1, h2⟩

/-! ## Case-insensitive browser auth (relay-server/src/handlers/ws.rs 172-222)

`handle_browser` uppercases the submitted code (`session_code
.to_uppercase()`), validates it against the sessions map, and on success
registers the browser under that uppercased code.  Minted codes are drawn
from `CODE_ALPHABET`, which holds only uppercase letters and digits.  Rust's
`str::to_uppercase`/`to_lowercase` are modelled on the ASCII fragment (all
characters involved are ASCII, where they agree with `Char.toUpper` /
`Char.toLower`).
-/

/-- Rust `str::to_uppercase`, ASCII fragment. -/
def to_uppercase (s : List Char) : List Char := s.map Char.toUpper

/-- Rust `str::to_lowercase`, ASCII fragment. -/
def to_lowercase (s : List Char) : List Char := s.map Char.toLower

/-- `validate_session_code` (state.rs lines 77-79). -/
def validate_session_code (st : RelayState) (code : List Char) : Bool :=
  (alookup st code).isSome

/-- The relay's reply to a browser's `auth`. -/
inductive AuthReply where
  | authSuccess
  | authFailed (reason : String)
deriving DecidableEq

/-- The auth phase of `handle_browser` (ws.rs lines 172-212): uppercase the
submitted code, validate, and either add the browser to that session and
reply `auth_success`, or reply `auth_failed`. -/
def handle_browser_auth (st : RelayState) (submitted : List Char)
    (bid : List Char) : RelayState × AuthReply :=
  let code := to_uppercase submitted
  if validate_session_code st code then
    (add_browser st code bid, AuthReply.authSuccess)
  else (st, AuthReply.authFailed "Invalid session code")

theorem code_alphabet_upper_of_lower :
    ∀ c ∈ CODE_ALPHABET, Char.toUpper (Char.toLower c) = c := by decide

theorem code_alphabet_upper_id :
    ∀ c ∈ CODE_ALPHABET, Char.toUpper c = c := by decide

theorem code_alphabet_upper_or_digit :
    ∀ c ∈ CODE_ALPHABET, c.isUpper = true ∨ c.isDigit = true := by decide

theorem generate_session_code_mem (pick : Fin 6 → Fin 31) (c : Char)
    (hc : c ∈ generate_session_code pick) : c ∈ CODE_ALPHABET := by
  rw [generate_session_code, List.mem_ofFn] at hc
  obtain ⟨i, hi⟩ := hc
  rw [← hi]
  exact List.get_mem _ _ _

theorem to_uppercase_to_lowercase_minted (pick : Fin 6 → Fin 31) :
    to_uppercase (to_lowercase (generate_session_code pick)) =
      generate_session_code pick ∧
    to_uppercase (generate_session_code pick) = generate_session_code pick := by
  constructor
  · rw [to_lowercase, to_uppercase, List.map_map]
    have h : (generate_session_code pick).map (Char.toUpper ∘ Char.toLower) =
        (generate_session_code pick).map id := by
      apply List.map_congr_left
      intro a ha
      exact code_alphabet_upper_of_lower a (generate_session_code_mem pick a ha)
    rw [h, List.map_id]
  · rw [to_uppercase]
    have h : (generate_session_code pick).map Char.toUpper =
        (generate_session_code pick).map id := by
      apply List.map_congr_left
      intro a ha
      exact code_alphabet_upper_id a (generate_session_code_mem pick a ha)
    rw [h, List.map_id]

/-- **C6.** Every minted code has length 6 and consists only of uppercase
letters and digits from the code alphabet; the relay uppercases the
browser-submitted code before lookup, so authing with the lowercase of a
minted code is the same operation as authing with the code itself — and
when the session exists both succeed and attach the browser to that very
session. -/
theorem C6_case_insensitive_auth (pick : Fin 6 → Fin 31) (C : List Char)
    (hC : C = generate_session_code pick) (st : RelayState)
    (bid : List Char) :
    C.length = 6 ∧
    (∀ c ∈ C, c ∈ CODE_ALPHABET ∧ (c.isUpper = true ∨ c.isDigit = true)) ∧
    handle_browser_auth st (to_lowercase C) bid =
      handle_browser_auth st C bid ∧
    ((alookup st C).isSome →
      handle_browser_auth st (to_lowercase C) bid =
        (add_browser st C bid, AuthReply.authSuccess)) := by
  subst hC
  obtain ⟨hlow, hup⟩ := to_uppercase_to_lowercase_minted pick
  refine ⟨?_, ?_, ?_, ?_⟩
  · rw [generate_session_code]
    exact List.length_ofFn _
  · intro c hc
    have hmem := generate_session_code_mem pick c hc
    exact ⟨hmem, code_alphabet_upper_or_digit c hmem⟩
  · rw [handle_browser_auth, handle_browser_auth, hlow, hup]
  · intro hsome
    rw [handle_browser_auth, hlow, validate_session_code, if_pos hsome]

/-- Witness for `C6_case_insensitive_auth`: the all-`A` pick mints
`"AAAAAA"`; with that session registered, authing with `"aaaaaa"` succeeds
and attaches browser `"b1aaaaaa"` to it. -/
theorem C6_case_insensitive_auth_witness :
    handle_browser_auth [("AAAAAA".data, ⟨"c1", []⟩)]
        (to_lowercase ("AAAAAA".data)) ("b1aaaaaa".data) =
      (add_browser [("AAAAAA".data, ⟨"c1", []⟩)] ("AAAAAA".data)
        ("b1aaaaaa".data), AuthReply.authSuccess) ∧
    ("AAAAAA".data).length = 6 := by
  have h := C6_case_insensitive_auth (fun _ => ⟨0, by omega⟩) ("AAAAAA".data)
    (by decide) [("AAAAAA".data, ⟨"c1", []⟩)] ("b1aaaaaa".data)
  exact ⟨h.2.2.2 (by decide), h.1⟩

/-! ## PTY detach events (mac-client/src/tmux/mod.rs)

The attached-sessions map is `HashMap<String, AttachedSession>` keyed by the
internal UUID.  `kill_session_by_id` (lines 557-601) looks up the tmux name,
runs `tmux kill-session`, then removes the map entry and — if it was present
— emits `TmuxEvent::Detached` "so the menu bar updates immediately".  The
PTY reader `read_tmux_output` (lines 414-465) emits `TmuxEvent::Detached`
unconditionally after its read loop ends on EOF or error, then removes the
entry.  Killing an attached session triggers both paths.
-/

/-- The `TmuxEvent` variants relevant to detach accounting. -/
inductive TmuxEventM where
  | attachedEv (session_id : String) (session_name : String)
  | detached (session_id : String)
  | output (session_id : String) (data : List Nat)
  | errorEv (message : String)
deriving DecidableEq

/-- Outcome of the `tmux kill-session` CLI call. -/
inductive CliResult where
  | ok
  | failed (stderr : String)
  | spawnFailed (msg : String)
deriving DecidableEq

/-- The error events of the `tmux kill-session` CLI branch in
`kill_session_by_id` (lines 575-588). -/
def killCliEvents (cli : CliResult) : List TmuxEventM :=
  match cli with
  | CliResult.ok => []
  | CliResult.failed err =>
    [TmuxEventM.errorEv ("Failed to kill session: " ++ err)]
  | CliResult.spawnFailed e => [TmuxEventM.errorEv ("tmux error: " ++ e)]

/-- `kill_session_by_id` (lines 557-601): look up the session name for the
UUID; if tracked, run the CLI kill (a failure emits an error event), then
remove the entry and emit `Detached` when the removal found it. -/
def kill_session_by_id (sessions : List (String × String)) (sid : String)
    (cli : CliResult) : List (String × String) × List TmuxEventM :=
  match alookup sessions sid with
  | none => (sessions, [])
  | some _name =>
    if (alookup sessions sid).isSome then
      (aremove sessions sid, killCliEvents cli ++ [TmuxEventM.detached sid])
    else (sessions, killCliEvents cli)

/-- The tail of `read_tmux_output` (lines 446-462) after its loop breaks on
EOF or read error: emit `Detached` unconditionally, remove the entry. -/
def reader_exit (sessions : List (String × String)) (sid : String) :
    List (String × String) × List TmuxEventM :=
  (aremove sessions sid, [TmuxEventM.detached sid])

/-- Killing an attached session followed by the reader hitting EOF (the PTY
closes because tmux died): the concatenated events of both paths. -/
def kill_then_reader_exit (sessions : List (String × String)) (sid : String)
    (cli : CliResult) : List TmuxEventM :=
  (kill_session_by_id sessions sid cli).2 ++
    (reader_exit (kill_session_by_id sessions sid cli).1 sid).2

/-- Number of `Detached` events for a UUID in an event trace. -/
def countDetached (evs : List TmuxEventM) (sid : String) : Nat :=
  evs.count (TmuxEventM.detached sid)

/-- **C8 counterexample.** For the single attached session `u1`, killing it
and then the reader's EOF path together emit `Detached{u1}` twice — once
from `kill_session_by_id` (removal found the entry) and once,
unconditionally, from `read_tmux_output` — not exactly once. -/
theorem C8_counterexample :
    countDetached (kill_then_reader_exit [("u1", "work")] "u1" CliResult.ok)
        "u1" = 2 ∧
    countDetached (kill_then_reader_exit [("u1", "work")] "u1" CliResult.ok)
        "u1" ≠ 1 := by
  exact ⟨by rfl, by decide⟩

/-- **C8 (amended).** The reader's EOF/error path emits exactly one
`Detached` per reader termination; the kill path emits exactly one more
whenever the session is still tracked (and none when it is not), so killing
an attached PTY session yields two `Detached` events for its UUID — one
immediate, one when the reader hits EOF. -/
theorem C8_detach_events (sessions : List (String × String)) (sid : String)
    (name : String) (cli : CliResult) (h : alookup sessions sid = some name) :
    countDetached (kill_session_by_id sessions sid cli).2 sid = 1 ∧
    countDetached (reader_exit sessions sid).2 sid = 1 ∧
    countDetached (kill_then_reader_exit sessions sid cli) sid = 2 ∧
    (∀ s2 : List (String × String), alookup s2 sid = none →
      countDetached (kill_session_by_id s2 sid cli).2 sid = 0) := by
  have hcli : countDetached (killCliEvents cli) sid = 0 := by
    cases cli with
    | ok => rfl
    | failed err => simp [killCliEvents, countDetached]
    | spawnFailed e => simp [killCliEvents, countDetached]
  have hk : (kill_session_by_id sessions sid cli).2 =
      killCliEvents cli ++ [TmuxEventM.detached sid] := by
    unfold kill_session_by_id
    rw [h]
    simp only [Option.isSome_some, if_pos]
  have h1 : countDetached (kill_session_by_id sessions sid cli).2 sid = 1 := by
    rw [hk, countDetached, List.count_append]
    rw [countDetached] at hcli
    rw [hcli]
    simp
  refine ⟨h1, by simp [reader_exit, countDetached], ?_, ?_⟩
  · rw [kill_then_reader_exit, countDetached, List.count_append]
    rw [countDetached] at h1
    rw [h1]
    simp [reader_exit, countDetached]
  · intro s2 h2
    unfold kill_session_by_id
    rw [h2]
    rfl

/-- Witness for `C8_detach_events` at the session map `[("u1","work")]`. -/
theorem C8_detach_events_witness :
    countDetached (kill_session_by_id [("u1", "work")] "u1" CliResult.ok).2
        "u1" = 1 ∧
    countDetached (reader_exit [("u1", "work")] "u1").2 "u1" = 1 ∧
    countDetached (kill_session_by_id [] "u1" CliResult.ok).2 "u1" = 0 := by
  have h := C8_detach_events [("u1", "work")] "u1" "work" CliResult.ok (by rfl)
  exact ⟨h.1, h.2.1, h.2.2.2 [] (by rfl)⟩
